import Mathlib

/-!
Verification development for the asynchronous git engine of a terminal UI:
the conflict-aware rebase state machine (`sync/rebase.rs`) and the async
push controller (`push.rs`) with its error taxonomy (`error.rs`).

The git binding (libgit2) is treated as an external collaborator: its calls
(`repo.rebase`, `rebase.next`, `index.has_conflicts`, `rebase.commit`,
`rebase.abort`, `rebase.finish`, `repo.open_rebase`) are modelled as
operations on an explicit world state, with the outcomes of the conflict
checks supplied as oracle inputs (a `RebasePlan`).
-/

namespace Asyncgit

/-- Commit identifiers (`CommitId` in the source): opaque value type,
modelled as `Nat`. -/
abbrev CommitId := Nat

/-- The error taxonomy of `error.rs` (variants relevant to this core);
wrapped collaborator errors carry their display string. -/
inductive Error where
  | generic (s : String)
  | noHead
  | rebaseConflict
  | unknownRemote
  | noDefaultRemoteFound
  | noWorkDir
  | uncommittedChanges
  | noBlameOnBinaryFile
  | binaryFile
  | io (s : String)
  | git (s : String)
  deriving Repr, DecidableEq

/-- The `Display` rendering of `Error` from the `#[error(...)]` attributes
in `error.rs` (`to_string()` in `set_result`). -/
def Error.message : Error → String
  | .generic s => "`" ++ s ++ "`"
  | .noHead => "git: no head found"
  | .rebaseConflict => "git: conflict during rebase"
  | .unknownRemote => "git: remote url not found"
  | .noDefaultRemoteFound => "git: inconclusive remotes"
  | .noWorkDir => "git: work dir error"
  | .uncommittedChanges => "git: uncommitted changes"
  | .noBlameOnBinaryFile => "git: can’t run blame on a binary file"
  | .binaryFile => "binary file"
  | .io s => "io error:" ++ s
  | .git s => "git error:" ++ s

/-- One pending rebase step, as the binding presents it to the step loop:
whether replaying it leaves the index conflicted (the oracle answer of
`repo.index()?.has_conflicts()` right after `rebase.next()`), the commit id
that `rebase.commit` synthesizes for it, and the working-tree contents
after the step is applied. -/
structure Step where
  conflict : Bool
  cid : CommitId
  newTree : Nat
  deriving Repr, DecidableEq

/-- A whole rebase as the binding would drive it: the list of steps
`rebase.next()` will yield, plus the oracle answer of the post-loop
`has_conflicts` check (the defensive re-check after the loop). -/
structure RebasePlan where
  steps : List Step
  finalConflict : Bool
  deriving Repr, DecidableEq

/-- True iff some conflict check fires while executing the plan: either
a step leaves the index conflicted, or the post-loop check does. -/
def RebasePlan.hasConflict (p : RebasePlan) : Bool :=
  p.steps.any (·.conflict) || p.finalConflict

/-- The on-disk rebase object while a rebase is open: the pre-rebase HEAD
and working tree it will restore on abort, its total step count
(`rebase.len()`), and the current operation index
(`rebase.operation_current()`, `none` before the first `next`). -/
structure RebaseObj where
  savedHead : CommitId
  savedTree : Nat
  total : Nat
  current : Option Nat
  deriving Repr, DecidableEq

/-- Ghost trace of binding calls, to distinguish e.g. `finish` from
`abort` on paths where the resulting state coincides. -/
inductive GitEvent where
  | openedRebase
  | steppedNext
  | committed (c : CommitId)
  | aborted
  | finished
  deriving Repr, DecidableEq

/-- The repository world the rebase engine acts on: current HEAD,
working-tree contents (abstracted to a `Nat`), the open on-disk rebase
object if any, the index's conflict flag, and the ghost call trace. -/
structure World where
  head : CommitId
  worktree : Nat
  openRebase : Option RebaseObj
  indexConflicted : Bool
  log : List GitEvent
  deriving Repr, DecidableEq

/-- Models `repo.rebase(None, Some(commit), None, None)`: open a rebase of `n`
steps, saving the pre-rebase HEAD and working tree in the on-disk object. -/
def World.startRebase (w : World) (n : Nat) : World :=
  { w with
    openRebase := some ⟨w.head, w.worktree, n, none⟩
    log := w.log ++ [GitEvent.openedRebase] }

/-- Models `rebase.next()`: advance to the next operation, applying its patch to
the working tree and index (the index conflict flag takes the step's
oracle answer); the rebase object's current operation index advances. -/
def World.nextStep (w : World) (s : Step) : World :=
  { w with
    worktree := s.newTree
    indexConflicted := s.conflict
    openRebase := w.openRebase.map fun r =>
      { r with current := some ((r.current.map (· + 1)).getD 0) }
    log := w.log ++ [GitEvent.steppedNext] }

/-- Models `rebase.commit(None, &signature, None)`: synthesize the commit for the
current step; HEAD moves to it and the index is written out clean. -/
def World.commitStep (w : World) (s : Step) : World :=
  { w with
    head := s.cid
    indexConflicted := false
    log := w.log ++ [GitEvent.committed s.cid] }

/-- Models `rebase.abort()`: restore the pre-rebase HEAD and working tree saved
in the on-disk rebase object, clear the index conflicts, and remove the
rebase object from disk. -/
def World.abortRebase (w : World) : World :=
  match w.openRebase with
  | some r =>
    { w with
      head := r.savedHead
      worktree := r.savedTree
      openRebase := none
      indexConflicted := false
      log := w.log ++ [GitEvent.aborted] }
  | none => { w with log := w.log ++ [GitEvent.aborted] }

/-- Models `rebase.finish(Some(&signature))`: finalize the rebase, removing the
on-disk rebase object; HEAD stays at the last synthesized commit. -/
def World.finishRebase (w : World) : World :=
  { w with
    openRebase := none
    log := w.log ++ [GitEvent.finished] }

/-- Models `repo.index()?.has_conflicts()` at the post-loop check: the index's
state at that point is the plan's oracle answer; record it in the world
and read it. -/
def World.recheckIndex (w : World) (b : Bool) : World :=
  { w with indexConflicted := b }

/-- The step loop of `conflict_free_rebase` (`rebase.rs` lines 13-37):
for each op from `rebase.next()`, check the index; on conflict abort and
fail with `RebaseConflict`; otherwise commit the step and remember its id.
After the loop, re-check the index (abort and fail identically on
conflict), else finish the rebase and return the last commit id, or the
generic "no commit rebased" error when none was produced. -/
def conflictFreeLoop (w : World) (steps : List Step) (finalConflict : Bool)
    (lastCommit : Option CommitId) : Except Error CommitId × World :=
  match steps with
  | [] =>
    let w := w.recheckIndex finalConflict
    if w.indexConflicted then
      (Except.error Error.rebaseConflict, w.abortRebase)
    else
      let w := w.finishRebase
      match lastCommit with
      | some c => (Except.ok c, w)
      | none => (Except.error (Error.generic ("no commit rebased")), w)
  | s :: rest =>
    let w := w.nextStep s
    if w.indexConflicted then
      (Except.error Error.rebaseConflict, w.abortRebase)
    else
      conflictFreeLoop (w.commitStep s) rest finalConflict (some s.cid)

/-- Models `conflict_free_rebase(repo, commit)`: open the rebase then run the
abort-on-conflict step loop. -/
def conflict_free_rebase (w : World) (p : RebasePlan) :
    Except Error CommitId × World :=
  conflictFreeLoop (w.startRebase p.steps.length) p.steps p.finalConflict none

/-- The `RebaseState` enum from `rebase.rs`. -/
inductive RebaseState where
  | Finished
  | Conflicted
  deriving Repr, DecidableEq

/-- The step loop of the tolerant `rebase` (`rebase.rs` lines 58-76):
identical conflict checks, but on conflict it returns
`Ok(RebaseState::Conflicted)` without aborting; when all steps and the
post-loop check are clean it finishes the rebase and returns `Finished`. -/
def rebaseLoop (w : World) (steps : List Step) (finalConflict : Bool) :
    Except Error RebaseState × World :=
  match steps with
  | [] =>
    let w := w.recheckIndex finalConflict
    if w.indexConflicted then
      (Except.ok RebaseState.Conflicted, w)
    else
      (Except.ok RebaseState.Finished, w.finishRebase)
  | s :: rest =>
    let w := w.nextStep s
    if w.indexConflicted then
      (Except.ok RebaseState.Conflicted, w)
    else
      rebaseLoop (w.commitStep s) rest finalConflict

/-- Models `rebase(repo, commit)` (tolerant variant): open the rebase then run
the return-on-conflict step loop. -/
def rebase (w : World) (p : RebasePlan) : Except Error RebaseState × World :=
  rebaseLoop (w.startRebase p.steps.length) p.steps p.finalConflict

/-- The `RebaseProgress` struct from `rebase.rs`. -/
structure RebaseProgress where
  steps : Nat
  current : Nat
  deriving Repr, DecidableEq

/-- Models `get_rebase_progress(repo)`: `repo.open_rebase(None)` fails with a git
error when no rebase is open on disk; otherwise report the on-disk
object's step count and `operation_current().unwrap_or_default()`. -/
def get_rebase_progress (w : World) : Except Error RebaseProgress :=
  match w.openRebase with
  | none => Except.error (Error.git ("no rebase in progress"))
  | some r => Except.ok ⟨r.total, r.current.getD 0⟩

/-- Models `abort_rebase(repo)`: open the on-disk rebase object (failing when
none is open) and abort it. -/
def abort_rebase (w : World) : Except Error Unit × World :=
  match w.openRebase with
  | none => (Except.error (Error.git ("no rebase in progress")), w)
  | some _ => (Except.ok (), w.abortRebase)

/-- The `PushRequest` struct from `push.rs` (credential material abstracted to its
presence/value as a string). -/
structure PushRequest where
  remote : String
  branch : String
  force : Bool
  delete : Bool
  basic_credential : Option String
  deriving Repr, DecidableEq

/-- The `PushState` struct from `push.rs`: the occupant of the Operation State Cell. -/
structure PushState where
  request : PushRequest
  deriving Repr, DecidableEq

/-- Modelled from the spec: `ProgressNotification` lives in
`sync/remotes/push.rs`, which is not part of this source set; per the spec
a progress event is a tagged union of a numeric/textual update and a
terminal "Done" sentinel. -/
inductive ProgressEvent where
  | Done
  | Update (value : Nat)
  deriving Repr, DecidableEq

/-- Modelled from the spec: `RemoteProgress`, the UI-facing snapshot shape
that `progress()` translates a raw progress event into, is defined outside
this source set; only its existence as a distinct value type matters here. -/
structure RemoteProgress where
  snapshot : ProgressEvent
  deriving Repr, DecidableEq

/-- The controller's shared cells (`AsyncPush`): the mutex-guarded
Operation State Cell, Result Cell and Shared Progress Slot. -/
structure AsyncPush where
  state : Option PushState
  last_result : Option String
  progress : Option ProgressEvent
  deriving Repr, DecidableEq

/-- Models `AsyncPush::new`. -/
def AsyncPush.new : AsyncPush := ⟨none, none, none⟩

/-- The outcome of acquiring one of the shared mutexes: `lock()` either
yields the guard or reports the lock poisoned by a panicking holder,
carrying that error's display string. -/
inductive LockOutcome where
  | acquired
  | poisoned (msg : String)
  deriving Repr, DecidableEq

/-- Models `From<PoisonError<T>> for Error` (`error.rs` lines 73-77): a poisoned
lock becomes the `Generic` variant with a descriptive message. -/
def Error.fromPoison (msg : String) : Error :=
  Error.generic ("poison error: " ++ msg)

/-- Models `AsyncPush::is_pending` with the lock outcome made explicit: `?` on a
poisoned `lock()` converts via `Error::fromPoison`; otherwise report
whether the Operation State Cell is occupied. -/
def AsyncPush.is_pending (a : AsyncPush) (l : LockOutcome) :
    Except Error Bool :=
  match l with
  | .poisoned msg => Except.error (Error.fromPoison msg)
  | .acquired => Except.ok a.state.isSome

/-- Models `AsyncPush::last_result` with the lock outcome made explicit. -/
def AsyncPush.lastResult (a : AsyncPush) (l : LockOutcome) :
    Except Error (Option String) :=
  match l with
  | .poisoned msg => Except.error (Error.fromPoison msg)
  | .acquired => Except.ok a.last_result

/-- Models `AsyncPush::progress` with the lock outcome made explicit: a snapshot
of the Shared Progress Slot translated into the UI-facing shape. -/
def AsyncPush.progressQuery (a : AsyncPush) (l : LockOutcome) :
    Except Error (Option RemoteProgress) :=
  match l with
  | .poisoned msg => Except.error (Error.fromPoison msg)
  | .acquired => Except.ok (a.progress.map fun p => ⟨p⟩)

/-- Models `AsyncPush::set_request` (`push.rs` lines 126-138): under the state
cell's lock, fail with the "pending request" `Generic` error if the cell
is occupied, else store the request. Returns the call result together
with the cell's (possibly updated) contents. -/
def AsyncPush.set_request (a : AsyncPush) (params : PushRequest) :
    Except Error Unit × AsyncPush :=
  if a.state.isSome then
    (Except.error (Error.generic ("pending request")), a)
  else
    (Except.ok (), { a with state := some ⟨params⟩ })

/-- Models `AsyncPush::request` (`push.rs` lines 73-124), synchronous part under
healthy locks: if pending, return `Ok(())` at once; otherwise claim the
state cell via `set_request`, reset the Shared Progress Slot to `None`,
and spawn the worker thread. The boolean records whether a worker thread
was spawned. -/
def AsyncPush.request (a : AsyncPush) (params : PushRequest) :
    Except Error Unit × AsyncPush × Bool :=
  if a.state.isSome then
    (Except.ok (), a, false)
  else
    match a.set_request params with
    | (Except.error e, a1) => (Except.error e, a1, false)
    | (Except.ok _, a1) =>
      let a2 := { a1 with progress := none }
      (Except.ok (), a2, true)

/-- Models `AsyncPush::set_result` (`push.rs` lines 150-165): overwrite the
Result Cell with `None` on success and the error's display string on
failure. -/
def AsyncPush.set_result (prev : Option String) (res : Except Error Unit) :
    Option String :=
  match res with
  | Except.ok _ => none
  | Except.error e => some e.message

/-- Ghost trace of the worker thread's completion sequence. -/
inductive WorkerEvent where
  | doneSent
  | relayJoined
  | resultSet
  | stateCleared
  | notified
  deriving Repr, DecidableEq

/-- The tail of the worker closure (`push.rs` lines 108-120), after the
blocking `push` returned `res`: send the `Done` sentinel into the
Progress Channel, join the relay thread, write the Result Cell via
`set_result`, clear the Operation State Cell, then send the final
completion notification. Returns the final shared-cell state and the
ordered event trace. -/
def workerCompletion (a : AsyncPush) (res : Except Error Unit) :
    AsyncPush × List WorkerEvent :=
  let tr : List WorkerEvent := [WorkerEvent.doneSent]
  let tr := tr ++ [WorkerEvent.relayJoined]
  let a := { a with last_result := AsyncPush.set_result a.last_result res }
  let tr := tr ++ [WorkerEvent.resultSet]
  let a := { a with state := none }
  let tr := tr ++ [WorkerEvent.stateCleared]
  let tr := tr ++ [WorkerEvent.notified]
  (a, tr)

/-- The `last_commit` accumulator of the step loop: starting from `last`,
each processed step overwrites it with that step's commit id. -/
def lastCid : Option CommitId → List Step → Option CommitId
  | last, [] => last
  | _, s :: rest => lastCid (some s.cid) rest

/-! ## Theorems -/

theorem lastCid_eq (steps : List Step) :
    ∀ last : Option CommitId,
    lastCid last steps =
      match steps.getLast? with
      | some s => some s.cid
      | none => last := by
  induction steps with
  | nil => intro last; simp [lastCid]
  | cons s rest ih =>
    intro last
    match rest with
    | [] => simp [lastCid]
    | b :: t =>
      rw [List.getLast?_cons_cons]
      simpa [lastCid] using ih (some s.cid)

theorem conflictFreeLoop_conflict (steps : List Step) :
    ∀ (fc : Bool) (w : World) (r : RebaseObj) (last : Option CommitId),
    w.openRebase = some r →
    (steps.any (·.conflict) || fc) = true →
    (conflictFreeLoop w steps fc last).1 = Except.error Error.rebaseConflict ∧
    (conflictFreeLoop w steps fc last).2.head = r.savedHead ∧
    (conflictFreeLoop w steps fc last).2.worktree = r.savedTree ∧
    (conflictFreeLoop w steps fc last).2.openRebase = none ∧
    (conflictFreeLoop w steps fc last).2.indexConflicted = false ∧
    GitEvent.aborted ∈ (conflictFreeLoop w steps fc last).2.log := by
  induction steps with
  | nil =>
    intro fc w r last hopen hconf
    simp only [List.any_nil, Bool.false_or] at hconf
    simp [conflictFreeLoop, World.recheckIndex, World.abortRebase, hconf,
      hopen]
  | cons s rest ih =>
    intro fc w r last hopen hconf
    by_cases hc : s.conflict
    · simp [conflictFreeLoop, World.nextStep, World.abortRebase, hc, hopen]
    · have hc' : s.conflict = false := by simpa using hc
      have hconf' : (rest.any (·.conflict) || fc) = true := by
        simpa [List.any_cons, hc'] using hconf
      have hopen' :
          ((w.nextStep s).commitStep s).openRebase =
            some { r with
              current := some (((r.current).map (· + 1)).getD 0) } := by
        simp [World.nextStep, World.commitStep, hopen]
      have := ih fc ((w.nextStep s).commitStep s)
        { r with current := some (((r.current).map (· + 1)).getD 0) }
        (some s.cid) hopen' hconf'
      simpa [conflictFreeLoop, World.nextStep, World.commitStep, hc'] using
        this

theorem conflictFreeLoop_clean (steps : List Step) :
    ∀ (w : World) (last : Option CommitId),
    (∀ s ∈ steps, s.conflict = false) →
    (conflictFreeLoop w steps false last).1 =
      (match lastCid last steps with
       | some c => Except.ok c
       | none => Except.error (Error.generic ("no commit rebased"))) ∧
    (conflictFreeLoop w steps false last).2.openRebase = none ∧
    GitEvent.finished ∈ (conflictFreeLoop w steps false last).2.log := by
  induction steps with
  | nil =>
    intro w last _
    simp [conflictFreeLoop, World.recheckIndex, World.finishRebase, lastCid]
    cases last <;> simp
  | cons s rest ih =>
    intro w last hclean
    have hc : s.conflict = false := hclean s (List.mem_cons_self s rest)
    have hclean' : ∀ x ∈ rest, x.conflict = false := fun x hx =>
      hclean x (List.mem_cons_of_mem s hx)
    have := ih ((w.nextStep s).commitStep s) (some s.cid) hclean'
    simpa [conflictFreeLoop, World.nextStep, World.commitStep, hc, lastCid]
      using this

/-- C1: whenever some conflict check fires during `conflict_free_rebase`
(at a step or at the post-loop re-check), the call aborts the open rebase,
returns the `RebaseConflict` error, and the repository is back in its
pre-call clean state: same HEAD, same working tree, no open rebase, no
index conflicts. -/
theorem conflict_free_rebase_conflict_aborts (w : World) (p : RebasePlan)
    (hopen : w.openRebase = none) (hidx : w.indexConflicted = false)
    (hc : p.hasConflict = true) :
    (conflict_free_rebase w p).1 = Except.error Error.rebaseConflict ∧
    (conflict_free_rebase w p).2.head = w.head ∧
    (conflict_free_rebase w p).2.worktree = w.worktree ∧
    (conflict_free_rebase w p).2.openRebase = w.openRebase ∧
    (conflict_free_rebase w p).2.indexConflicted = w.indexConflicted ∧
    GitEvent.aborted ∈ (conflict_free_rebase w p).2.log := by
  have hsr : (w.startRebase p.steps.length).openRebase =
      some ⟨w.head, w.worktree, p.steps.length, none⟩ := by
    simp [World.startRebase]
  have := conflictFreeLoop_conflict p.steps p.finalConflict
    (w.startRebase p.steps.length)
    ⟨w.head, w.worktree, p.steps.length, none⟩ none hsr
    (by simpa [RebasePlan.hasConflict] using hc)
  simpa [conflict_free_rebase, hopen, hidx] using this

/-- Witness for C1 at a concrete conflicting plan. -/
theorem conflict_free_rebase_conflict_aborts_witness :
    (conflict_free_rebase ⟨10, 5, none, false, []⟩
        ⟨[⟨true, 42, 7⟩], false⟩).1 = Except.error Error.rebaseConflict ∧
    (conflict_free_rebase ⟨10, 5, none, false, []⟩
        ⟨[⟨true, 42, 7⟩], false⟩).2.head = 10 := by
  have := conflict_free_rebase_conflict_aborts ⟨10, 5, none, false, []⟩
    ⟨[⟨true, 42, 7⟩], false⟩ rfl rfl (by decide)
  exact ⟨this.1, this.2.1⟩

/-- C4: when no conflict check fires, `conflict_free_rebase` finalizes the
rebase (no rebase left open, `finish` called) and returns the id of the
commit synthesized for the last step; with no steps at all it returns the
generic "no commit rebased" error. -/
theorem conflict_free_rebase_success (w : World) (p : RebasePlan)
    (hnc : p.hasConflict = false) :
    (conflict_free_rebase w p).1 =
      (match p.steps.getLast? with
       | some s => Except.ok s.cid
       | none => Except.error (Error.generic ("no commit rebased"))) ∧
    (conflict_free_rebase w p).2.openRebase = none ∧
    GitEvent.finished ∈ (conflict_free_rebase w p).2.log := by
  have hfc : p.finalConflict = false := by
    have := hnc
    simp [RebasePlan.hasConflict] at this
    exact this.2
  have hclean : ∀ s ∈ p.steps, s.conflict = false := by
    have := hnc
    simp [RebasePlan.hasConflict, List.any_eq_true] at this
    intro s hs
    by_contra hcontra
    exact absurd (this.1 s hs) (by simpa using hcontra)
  have hmain := conflictFreeLoop_clean p.steps
    (w.startRebase p.steps.length) none hclean
  have hlast := lastCid_eq p.steps (none : Option CommitId)
  refine ⟨?_, ?_, ?_⟩
  · rw [conflict_free_rebase, hfc, hmain.1, hlast]
    cases p.steps.getLast? <;> simp
  · rw [conflict_free_rebase, hfc]
    exact hmain.2.1
  · rw [conflict_free_rebase, hfc]
    exact hmain.2.2

/-- Witness for C4 at a concrete two-step clean plan and at the empty
plan. -/
theorem conflict_free_rebase_success_witness :
    (conflict_free_rebase ⟨10, 5, none, false, []⟩
        ⟨[⟨false, 41, 6⟩, ⟨false, 42, 7⟩], false⟩).1 = Except.ok 42 ∧
    (conflict_free_rebase ⟨10, 5, none, false, []⟩
        ⟨[], false⟩).1 =
      Except.error (Error.generic ("no commit rebased")) := by
  have h1 := conflict_free_rebase_success ⟨10, 5, none, false, []⟩
    ⟨[⟨false, 41, 6⟩, ⟨false, 42, 7⟩], false⟩ (by decide)
  have h2 := conflict_free_rebase_success ⟨10, 5, none, false, []⟩
    ⟨[], false⟩ (by decide)
  exact ⟨by simpa using h1.1, by simpa using h2.1⟩

theorem rebaseLoop_conflict (steps : List Step) :
    ∀ (fc : Bool) (w : World) (r : RebaseObj),
    w.openRebase = some r →
    (steps.any (·.conflict) || fc) = true →
    GitEvent.aborted ∉ w.log →
    (rebaseLoop w steps fc).1 = Except.ok RebaseState.Conflicted ∧
    (rebaseLoop w steps fc).2.openRebase.isSome = true ∧
    GitEvent.aborted ∉ (rebaseLoop w steps fc).2.log := by
  induction steps with
  | nil =>
    intro fc w r hopen hconf hlog
    simp only [List.any_nil, Bool.false_or] at hconf
    simp [rebaseLoop, World.recheckIndex, hconf, hopen, hlog]
  | cons s rest ih =>
    intro fc w r hopen hconf hlog
    by_cases hc : s.conflict
    · simp [rebaseLoop, World.nextStep, hc, hopen, hlog]
    · have hc' : s.conflict = false := by simpa using hc
      have hconf' : (rest.any (·.conflict) || fc) = true := by
        simpa [List.any_cons, hc'] using hconf
      have hopen' :
          ((w.nextStep s).commitStep s).openRebase =
            some { r with
              current := some (((r.current).map (· + 1)).getD 0) } := by
        simp [World.nextStep, World.commitStep, hopen]
      have hlog' :
          GitEvent.aborted ∉ ((w.nextStep s).commitStep s).log := by
        simp [World.nextStep, World.commitStep, hlog]
      have := ih fc ((w.nextStep s).commitStep s)
        { r with current := some (((r.current).map (· + 1)).getD 0) }
        hopen' hconf' hlog'
      simpa [rebaseLoop, World.nextStep, World.commitStep, hc'] using this

theorem rebaseLoop_clean (steps : List Step) :
    ∀ w : World,
    (∀ s ∈ steps, s.conflict = false) →
    (rebaseLoop w steps false).1 = Except.ok RebaseState.Finished ∧
    (rebaseLoop w steps false).2.openRebase = none ∧
    GitEvent.finished ∈ (rebaseLoop w steps false).2.log := by
  induction steps with
  | nil =>
    intro w _
    simp [rebaseLoop, World.recheckIndex, World.finishRebase]
  | cons s rest ih =>
    intro w hclean
    have hc : s.conflict = false := hclean s (List.mem_cons_self s rest)
    have hclean' : ∀ x ∈ rest, x.conflict = false := fun x hx =>
      hclean x (List.mem_cons_of_mem s hx)
    have := ih ((w.nextStep s).commitStep s) hclean'
    simpa [rebaseLoop, World.nextStep, World.commitStep, hc] using this

/-- C2: the tolerant `rebase` runs the same conflict checks as
`conflict_free_rebase` (it reports `Conflicted` exactly when the strict
variant fails with `RebaseConflict`); on a conflict it returns
`Ok(Conflicted)` without ever aborting, leaving the rebase object open on
disk, and when every check is clean it finishes the rebase and returns
`Ok(Finished)`. -/
theorem rebase_tolerant_spec (w : World) (p : RebasePlan)
    (hopen : w.openRebase = none) (hlog : GitEvent.aborted ∉ w.log) :
    (p.hasConflict = true →
      (rebase w p).1 = Except.ok RebaseState.Conflicted ∧
      (rebase w p).2.openRebase.isSome = true ∧
      GitEvent.aborted ∉ (rebase w p).2.log) ∧
    (p.hasConflict = false →
      (rebase w p).1 = Except.ok RebaseState.Finished ∧
      (rebase w p).2.openRebase = none ∧
      GitEvent.finished ∈ (rebase w p).2.log) ∧
    ((rebase w p).1 = Except.ok RebaseState.Conflicted ↔
      (conflict_free_rebase w p).1 = Except.error Error.rebaseConflict) := by
  have hsr : (w.startRebase p.steps.length).openRebase =
      some ⟨w.head, w.worktree, p.steps.length, none⟩ := by
    simp [World.startRebase]
  have hsrlog : GitEvent.aborted ∉ (w.startRebase p.steps.length).log := by
    simp [World.startRebase, hlog]
  have hconfCase : p.hasConflict = true →
      (rebase w p).1 = Except.ok RebaseState.Conflicted ∧
      (rebase w p).2.openRebase.isSome = true ∧
      GitEvent.aborted ∉ (rebase w p).2.log := by
    intro hc
    have := rebaseLoop_conflict p.steps p.finalConflict
      (w.startRebase p.steps.length)
      ⟨w.head, w.worktree, p.steps.length, none⟩ hsr
      (by simpa [RebasePlan.hasConflict] using hc) hsrlog
    simpa [rebase] using this
  have hcleanCase : p.hasConflict = false →
      (rebase w p).1 = Except.ok RebaseState.Finished ∧
      (rebase w p).2.openRebase = none ∧
      GitEvent.finished ∈ (rebase w p).2.log := by
    intro hnc
    have hfc : p.finalConflict = false := by
      have := hnc
      simp [RebasePlan.hasConflict] at this
      exact this.2
    have hclean : ∀ s ∈ p.steps, s.conflict = false := by
      have := hnc
      simp [RebasePlan.hasConflict, List.any_eq_true] at this
      intro s hs
      by_contra hcontra
      exact absurd (this.1 s hs) (by simpa using hcontra)
    have := rebaseLoop_clean p.steps (w.startRebase p.steps.length) hclean
    rw [rebase, hfc]
    exact this
  refine ⟨hconfCase, hcleanCase, ?_⟩
  by_cases hc : p.hasConflict
  · have h1 := hconfCase hc
    have h2 := conflictFreeLoop_conflict p.steps p.finalConflict
      (w.startRebase p.steps.length)
      ⟨w.head, w.worktree, p.steps.length, none⟩ none hsr
      (by simpa [RebasePlan.hasConflict] using hc)
    constructor
    · intro _
      simpa [conflict_free_rebase] using h2.1
    · intro _
      exact h1.1
  · have hnc : p.hasConflict = false := by simpa using hc
    have h1 := hcleanCase hnc
    have hfc : p.finalConflict = false := by
      have := hnc
      simp [RebasePlan.hasConflict] at this
      exact this.2
    have hclean : ∀ s ∈ p.steps, s.conflict = false := by
      have := hnc
      simp [RebasePlan.hasConflict, List.any_eq_true] at this
      intro s hs
      by_contra hcontra
      exact absurd (this.1 s hs) (by simpa using hcontra)
    have h2 := conflictFreeLoop_clean p.steps
      (w.startRebase p.steps.length) none hclean
    constructor
    · intro habs
      rw [h1.1] at habs
      exact absurd habs (by simp)
    · intro habs
      have : (conflict_free_rebase w p).1 =
          (match lastCid none p.steps with
           | some c => Except.ok c
           | none => Except.error (Error.generic ("no commit rebased"))) := by
        rw [conflict_free_rebase, hfc]
        exact h2.1
      rw [this] at habs
      cases hl : lastCid none p.steps <;> simp [hl] at habs

/-- Witness for C2 at a concrete conflicting plan and a concrete clean
plan. -/
theorem rebase_tolerant_spec_witness :
    (rebase ⟨10, 5, none, false, []⟩ ⟨[⟨true, 42, 7⟩], false⟩).1 =
      Except.ok RebaseState.Conflicted ∧
    (rebase ⟨10, 5, none, false, []⟩ ⟨[⟨false, 42, 7⟩], false⟩).1 =
      Except.ok RebaseState.Finished := by
  have h1 := rebase_tolerant_spec ⟨10, 5, none, false, []⟩
    ⟨[⟨true, 42, 7⟩], false⟩ rfl (by simp)
  have h2 := rebase_tolerant_spec ⟨10, 5, none, false, []⟩
    ⟨[⟨false, 42, 7⟩], false⟩ rfl (by simp)
  exact ⟨(h1.1 (by decide)).1, (h2.2.1 (by decide)).1⟩

/-- C6: `get_rebase_progress` fails whenever no rebase is open on disk,
and when one is open it reports that on-disk object's step count and
current operation index. -/
theorem get_rebase_progress_spec (w : World) :
    (w.openRebase = none → ∃ e, get_rebase_progress w = Except.error e) ∧
    (∀ r : RebaseObj, w.openRebase = some r →
      get_rebase_progress w = Except.ok ⟨r.total, r.current.getD 0⟩) := by
  constructor
  · intro h
    exact ⟨Error.git ("no rebase in progress"), by
      simp [get_rebase_progress, h]⟩
  · intro r h
    simp [get_rebase_progress, h]

/-- Witness for C6: fails on a world with no open rebase; reports the
on-disk counts on a world with one (as left by a conflicted tolerant
rebase). -/
theorem get_rebase_progress_spec_witness :
    (∃ e, get_rebase_progress ⟨10, 5, none, false, []⟩ = Except.error e) ∧
    get_rebase_progress ⟨10, 7, some ⟨10, 5, 1, some 0⟩, true, []⟩ =
      Except.ok ⟨1, 0⟩ := by
  refine ⟨(get_rebase_progress_spec ⟨10, 5, none, false, []⟩).1 rfl, ?_⟩
  exact (get_rebase_progress_spec
    ⟨10, 7, some ⟨10, 5, 1, some 0⟩, true, []⟩).2 ⟨10, 5, 1, some 0⟩ rfl

/-- C10: on the empty-rebase path (no steps, clean post-loop check)
`conflict_free_rebase` calls `finish` — not `abort` — before returning the
generic "no commit rebased" error, so even this error return leaves no
rebase open on disk. -/
theorem conflict_free_rebase_empty_finishes (w : World) :
    (conflict_free_rebase w ⟨[], false⟩).1 =
      Except.error (Error.generic ("no commit rebased")) ∧
    (conflict_free_rebase w ⟨[], false⟩).2.openRebase = none ∧
    (conflict_free_rebase w ⟨[], false⟩).2.log =
      w.log ++ [GitEvent.openedRebase, GitEvent.finished] := by
  simp [conflict_free_rebase, conflictFreeLoop, World.startRebase,
    World.recheckIndex, World.finishRebase]

/-- C3: a `request` made while `is_pending()` is true returns `Ok(())`
and has no side effects: the Operation State Cell, Result Cell and Shared
Progress Slot are all unchanged and no worker thread is spawned — the
request is silently dropped, neither queued nor reported as an error. -/
theorem request_while_pending_noop (a : AsyncPush) (params : PushRequest)
    (h : a.is_pending LockOutcome.acquired = Except.ok true) :
    a.request params = (Except.ok (), a, false) := by
  have hs : a.state.isSome = true := by
    simpa [AsyncPush.is_pending] using h
  simp [AsyncPush.request, hs]

/-- Witness for C3 at a concrete pending controller. -/
theorem request_while_pending_noop_witness :
    AsyncPush.request
        ⟨some ⟨⟨"origin", "main", false, false, none⟩⟩,
          some ("old failure"), some (ProgressEvent.Update 3)⟩
        ⟨"origin", "other", true, false, none⟩ =
      (Except.ok (),
        ⟨some ⟨⟨"origin", "main", false, false, none⟩⟩,
          some ("old failure"), some (ProgressEvent.Update 3)⟩,
        false) :=
  request_while_pending_noop
    ⟨some ⟨⟨"origin", "main", false, false, none⟩⟩,
      some ("old failure"), some (ProgressEvent.Update 3)⟩
    ⟨"origin", "other", true, false, none⟩ rfl

/-- C5: a completed operation overwrites the Result Cell — whatever its
previous value — with `none` on success and the error's display message
on failure; and `request` itself never surfaces a push error: its only
possible failure is the "pending request" race error. -/
theorem set_result_overwrites :
    (∀ prev : Option String,
      AsyncPush.set_result prev (Except.ok ()) = none) ∧
    (∀ (prev : Option String) (e : Error),
      AsyncPush.set_result prev (Except.error e) = some e.message) ∧
    (∀ (a : AsyncPush) (params : PushRequest),
      (a.request params).1 = Except.ok () ∨
      (a.request params).1 =
        Except.error (Error.generic ("pending request"))) := by
  refine ⟨fun prev => rfl, fun prev e => rfl, fun a params => ?_⟩
  by_cases hs : a.state.isSome
  · left
    simp [AsyncPush.request, hs]
  · left
    simp [AsyncPush.request, AsyncPush.set_request, hs]

/-- C7: the worker's completion sequence sends the final notification
strictly after the `Done` sentinel, the relay-thread join, the Result
Cell write and the Operation State Cell clear, so a UI thread reacting to
the notification observes the final values: `is_pending()` is false and
`last_result()` is exactly what `set_result` computed for this run. -/
theorem worker_completion_order (a : AsyncPush) (res : Except Error Unit) :
    ((workerCompletion a res).2.indexOf WorkerEvent.doneSent <
      (workerCompletion a res).2.indexOf WorkerEvent.relayJoined) ∧
    ((workerCompletion a res).2.indexOf WorkerEvent.relayJoined <
      (workerCompletion a res).2.indexOf WorkerEvent.resultSet) ∧
    ((workerCompletion a res).2.indexOf WorkerEvent.resultSet <
      (workerCompletion a res).2.indexOf WorkerEvent.notified) ∧
    ((workerCompletion a res).2.indexOf WorkerEvent.stateCleared <
      (workerCompletion a res).2.indexOf WorkerEvent.notified) ∧
    (workerCompletion a res).1.is_pending LockOutcome.acquired =
      Except.ok false ∧
    (workerCompletion a res).1.lastResult LockOutcome.acquired =
      Except.ok (AsyncPush.set_result a.last_result res) := by
  have htr : (workerCompletion a res).2 =
      [WorkerEvent.doneSent, WorkerEvent.relayJoined,
        WorkerEvent.resultSet, WorkerEvent.stateCleared,
        WorkerEvent.notified] := rfl
  refine ⟨by rw [htr]; decide, by rw [htr]; decide, by rw [htr]; decide,
    by rw [htr]; decide, ?_, ?_⟩
  · simp [workerCompletion, AsyncPush.is_pending]
  · simp [workerCompletion, AsyncPush.lastResult]

/-- C8: `set_request` performs the check-and-set atomically under the
state cell's lock: if the cell is occupied at that point the call fails
with the "pending request" `Generic` error and the cell is unchanged;
otherwise the cell becomes `Some(params)` (the other cells untouched). -/
theorem set_request_check_and_set (a : AsyncPush) (params : PushRequest) :
    (a.state.isSome = true →
      a.set_request params =
        (Except.error (Error.generic ("pending request")), a)) ∧
    (a.state = none →
      a.set_request params =
        (Except.ok (), { a with state := some ⟨params⟩ })) := by
  constructor
  · intro h
    simp [AsyncPush.set_request, h]
  · intro h
    simp [AsyncPush.set_request, h]

/-- Witness for C8: the occupied and the free cell at concrete inputs. -/
theorem set_request_check_and_set_witness :
    AsyncPush.set_request
        ⟨some ⟨⟨"origin", "main", false, false, none⟩⟩, none, none⟩
        ⟨"origin", "dev", false, true, none⟩ =
      (Except.error (Error.generic ("pending request")),
        ⟨some ⟨⟨"origin", "main", false, false, none⟩⟩, none, none⟩) ∧
    AsyncPush.set_request ⟨none, none, none⟩
        ⟨"origin", "dev", false, true, none⟩ =
      (Except.ok (),
        ⟨some ⟨⟨"origin", "dev", false, true, none⟩⟩, none, none⟩) :=
  ⟨(set_request_check_and_set
      ⟨some ⟨⟨"origin", "main", false, false, none⟩⟩, none, none⟩
      ⟨"origin", "dev", false, true, none⟩).1 rfl,
    (set_request_check_and_set ⟨none, none, none⟩
      ⟨"origin", "dev", false, true, none⟩).2 rfl⟩

/-- C9: a poisoned-lock error is converted into the `Generic` error
variant with a descriptive message, so each of the polling calls
`is_pending`/`last_result`/`progress` returns that `Generic` error on a
poisoned lock instead of propagating a crash. -/
theorem poison_becomes_generic (msg : String) (a : AsyncPush) :
    Error.fromPoison msg = Error.generic ("poison error: " ++ msg) ∧
    a.is_pending (LockOutcome.poisoned msg) =
      Except.error (Error.generic ("poison error: " ++ msg)) ∧
    a.lastResult (LockOutcome.poisoned msg) =
      Except.error (Error.generic ("poison error: " ++ msg)) ∧
    a.progressQuery (LockOutcome.poisoned msg) =
      Except.error (Error.generic ("poison error: " ++ msg)) :=
  ⟨rfl, rfl, rfl, rfl⟩

end Asyncgit
